import Mathlib

/-!
Shallow embedding of the feed/item storage and aggregation engine of the
`every-rss-feed` repository (server `lib/redis.ts` together with the data
model of `schemas/feed.ts`), and proofs of the behavioural claims about it.

Modelling conventions:
* The Redis key space is split by key pattern into the fields of `Rss.Store`
  (`feed:{id}`, `item:{id}`, `feed:{id}:items`, `feeds:directory`,
  `trending:...`), which is faithful because the code only ever reads a key
  pattern it previously wrote with the same pattern.
* JSON serialisation/deserialisation round-trips are the identity, so
  documents are stored as typed values.
* Date strings are represented by their epoch-milliseconds value
  `new Date(s).getTime()`: every use of a date in the engine goes through
  that conversion.  An absent or empty `published` string (both falsy in
  `item.published || item.date`) is `none`.
* `crypto.randomUUID()` is modelled by a deterministic fresh-name counter
  `uuidSeq` threaded through the store.
* Redis `LRANGE` on an absent list key returns the empty list, and a list
  key holding the empty list is indistinguishable from an absent key, so
  per-feed item lists are total functions into `List String` with `[]` for
  "absent".
* The transport error channel (`RedisError` wrapping rejected promises) is
  not modelled: in the embedding every KV round-trip succeeds, which is the
  `try` branch of every `Effect.tryPromise` in the source.
-/

namespace Rss

/-- `FeedAuthor` of `schemas/feed.ts`. -/
structure FeedAuthor where
  name : Option String := none
  email : Option String := none
  link : Option String := none
  avatar : Option String := none
deriving DecidableEq, Repr

/-- `FeedEnclosure` of `schemas/feed.ts`; numbers are modelled as integers. -/
structure FeedEnclosure where
  url : String
  type : Option String := none
  length : Option Int := none
  title : Option String := none
  duration : Option Int := none
deriving DecidableEq, Repr

/-- `FeedCategory` of `schemas/feed.ts`: a free-form tag. -/
structure FeedCategory where
  name : Option String := none
  domain : Option String := none
  scheme : Option String := none
  term : Option String := none
deriving DecidableEq, Repr

/-- `FeedExtension` of `schemas/feed.ts`; the free-form `objects : z.any()`
payload is kept as its serialised form. -/
structure FeedExtension where
  name : String
  objects : String := ""
deriving DecidableEq, Repr

/-- A media reference: `z.union([z.string(), FeedEnclosure])`. -/
inductive MediaRef where
  | url (s : String)
  | enclosure (e : FeedEnclosure)
deriving DecidableEq, Repr

/-- `FeedItem` of `schemas/feed.ts`.  `date` and `published` are the
epoch-milliseconds values of the corresponding date strings (see module
header); `published = none` covers both an absent and an empty string. -/
structure FeedItem where
  title : String
  id : Option String := none
  link : String := ""
  date : Int
  description : Option String := none
  content : Option String := none
  category : Option (List FeedCategory) := none
  guid : Option String := none
  image : Option MediaRef := none
  audio : Option MediaRef := none
  video : Option MediaRef := none
  enclosure : Option FeedEnclosure := none
  author : Option (List FeedAuthor) := none
  contributor : Option (List FeedAuthor) := none
  published : Option Int := none
  copyright : Option String := none
  extensions : Option (List FeedExtension) := none
deriving DecidableEq, Repr

/-- `FeedOptions` of `schemas/feed.ts`. -/
structure FeedOptions where
  id : String
  title : String
  updated : Option String := none
  generator : Option String := none
  language : Option String := none
  ttl : Option Int := none
  feed : Option String := none
  feedLinks : Option String := none
  hub : Option String := none
  docs : Option String := none
  podcast : Option Bool := none
  category : Option String := none
  author : Option FeedAuthor := none
  link : Option String := none
  description : Option String := none
  image : Option String := none
  favicon : Option String := none
  copyright : String := ""
deriving DecidableEq, Repr

/-- `Feed` of `schemas/feed.ts`. -/
structure Feed where
  items : List FeedItem
  options : FeedOptions
  categories : List String := []
  contributors : List FeedAuthor := []
  extensions : List FeedExtension := []
deriving DecidableEq, Repr

/-- The four trending windows of `lib/redis.ts`. -/
inductive TimeWindow where
  | h1
  | h24
  | d7
  | d30
deriving DecidableEq, Repr

/-- The literal window strings `'1h' | '24h' | '7d' | '30d'`. -/
def TimeWindow.str : TimeWindow → String
  | .h1 => r"1h"
  | .h24 => r"24h"
  | .d7 => r"7d"
  | .d30 => r"30d"

/-- `getTimeWindowSeconds` of `lib/redis.ts`. -/
def getTimeWindowSeconds : TimeWindow → Int
  | .h1 => 3600
  | .h24 => 86400
  | .d7 => 604800
  | .d30 => 2592000

/-- The Redis state seen by `lib/redis.ts`, split by key pattern.
`zsets` maps a full sorted-set key (such as `trending:1h` or
`trending:feed:F:24h`) to its member/score entries. -/
structure Store where
  feedDocs : String → Option Feed
  itemDocs : String → Option FeedItem
  itemLists : String → List String
  directory : List String
  zsets : String → List (String × Int)
  uuidSeq : Nat

/-- Point update of a key-indexed total map. -/
def upd {α : Type} (m : String → α) (k : String) (v : α) : String → α :=
  fun q => if q = k then v else m q

/-- Redis `SADD`: insert a member into a set if absent; members are listed
in insertion order. -/
def sadd (d : List String) (m : String) : List String :=
  if m ∈ d then d else d ++ [m]

/-- Redis `SREM`: remove a member from a set. -/
def srem (d : List String) (m : String) : List String :=
  d.filter (fun x => x ≠ m)

/-- Redis `ZADD`: set the score of a member, inserting it if absent. -/
def zadd (zs : List (String × Int)) (score : Int) (member : String) :
    List (String × Int) :=
  if zs.any (fun p => p.1 = member) then
    zs.map (fun p => if p.1 = member then (member, score) else p)
  else
    zs ++ [(member, score)]

/-- JavaScript `x || d` on an optional number where `0` is falsy: used for
the `options?.limit || n` and `options?.offset || 0` defaults. -/
def jsOrNat (o : Option Nat) (d : Nat) : Nat :=
  match o with
  | some n => if n = 0 then d else n
  | none => d

/-- Fresh identifier produced by the `crypto.randomUUID()` model. -/
def freshUuid (n : Nat) : String :=
  r"uuid-" ++ Nat.repr n

/-- `item.id || crypto.randomUUID()`: take the item's own id unless it is
absent or empty (both falsy), otherwise draw a fresh uuid.  Returns the id
together with the store whose uuid counter may have advanced. -/
def assignId (st : Store) (item : FeedItem) : String × Store :=
  match item.id with
  | some i => if i = "" then (freshUuid st.uuidSeq, { st with uuidSeq := st.uuidSeq + 1 }) else (i, st)
  | none => (freshUuid st.uuidSeq, { st with uuidSeq := st.uuidSeq + 1 })

/-- One iteration of the item loop shared by `addFeed` and `addFeedItem`:
store the item document under its id and push the id to the front of the
feed's item list.  Returns the item id and the new store. -/
def pushItem (feedId : String) (st : Store) (item : FeedItem) : String × Store :=
  let p := assignId st item
  let st2 := { p.2 with itemDocs := upd p.2.itemDocs p.1 (some { item with id := some p.1 }) }
  (p.1, { st2 with itemLists := upd st2.itemLists feedId (p.1 :: st2.itemLists feedId) })

/-- `addFeed` of `lib/redis.ts`: replace-style feed creation.  If the feed
document already exists, first delete every item currently indexed for the
feed and clear the item list; then store the feed document, add the id to
the directory, and store/push each input item. -/
def addFeed (st : Store) (feed : Feed) : String × Store :=
  let feedId := feed.options.id
  let st1 :=
    if (st.feedDocs feedId).isSome then
      let oldItemIds := st.itemLists feedId
      let sta := { st with itemDocs := oldItemIds.foldl (fun m i => upd m i none) st.itemDocs }
      { sta with itemLists := upd sta.itemLists feedId [] }
    else st
  let st2 := { st1 with feedDocs := upd st1.feedDocs feedId (some feed) }
  let st3 := { st2 with directory := sadd st2.directory feedId }
  let st4 := feed.items.foldl (fun s item => (pushItem feedId s item).2) st3
  (feedId, st4)

/-- `getFeed` of `lib/redis.ts`: `feedData ? JSON.parse(feedData) : null`. -/
def getFeed (st : Store) (feedId : String) : Option Feed :=
  match st.feedDocs feedId with
  | some feed => some feed
  | none => none

/-- `getFeeds` of `lib/redis.ts`: resolve every directory member, skipping
entries whose document is missing. -/
def getFeeds (st : Store) : List Feed :=
  st.directory.filterMap st.feedDocs

/-- `deleteFeed` of `lib/redis.ts`: delete every indexed item document,
the item list, the feed document, and the directory membership. -/
def deleteFeed (st : Store) (feedId : String) : Store :=
  let itemIds := st.itemLists feedId
  let st1 := { st with itemDocs := itemIds.foldl (fun m i => upd m i none) st.itemDocs }
  let st2 := { st1 with itemLists := upd st1.itemLists feedId [] }
  let st3 := { st2 with feedDocs := upd st2.feedDocs feedId none }
  { st3 with directory := srem st3.directory feedId }

/-- `addFeedItem` of `lib/redis.ts`: store the item document and push its id
to the front of the feed's item list; the feed itself is never consulted. -/
def addFeedItem (st : Store) (feedId : String) (item : FeedItem) : String × Store :=
  pushItem feedId st item

/-- `getFeedItems` of `lib/redis.ts`: resolve the full item-id list,
skipping ids whose document is missing. -/
def getFeedItems (st : Store) (feedId : String) : List FeedItem :=
  (st.itemLists feedId).filterMap st.itemDocs

/-- `getFeedItem` of `lib/redis.ts`: a direct global lookup of
`item:{itemId}`; the `feedId` argument is unused on the success path. -/
def getFeedItem (st : Store) (feedId : String) (itemId : String) : Option FeedItem :=
  match st.itemDocs itemId with
  | some item => some item
  | none => none

/-- The effective date of an item: `new Date(item.published || item.date)`
(the `published` timestamp when present and non-empty, else `date`). -/
def effectiveDate (item : FeedItem) : Int :=
  item.published.getD item.date

/-- The order realised by the date sort comparator
`(a, b) => dateB.getTime() - dateA.getTime()`: `a` may be placed before `b`
exactly when `a`'s effective date is at least `b`'s (descending order).
`Array.prototype.sort` is a stable sort, modelled by `List.insertionSort`
over this total preorder. -/
def dateGe (a b : FeedItem) : Prop :=
  effectiveDate b ≤ effectiveDate a

instance : DecidableRel dateGe :=
  fun a b => inferInstanceAs (Decidable (effectiveDate b ≤ effectiveDate a))

instance : IsTotal FeedItem dateGe :=
  ⟨fun a b => le_total (effectiveDate b) (effectiveDate a)⟩

instance : IsTrans FeedItem dateGe :=
  ⟨fun _ _ _ hab hbc => le_trans hbc hab⟩

/-- The `since` filter of `getAllFeedItems`: skip an item whose effective
date is strictly before the given timestamp. -/
def keepSince (since : Option Int) (item : FeedItem) : Bool :=
  match since with
  | some t => decide (t ≤ effectiveDate item)
  | none => true

/-- The collection phase of `getAllFeedItems`: for every feed in the
directory, in order, resolve its item-id list, skipping missing documents
and items filtered out by `since`. -/
def collectAllItems (st : Store) (since : Option Int) : List FeedItem :=
  (st.directory.map (fun feedId =>
    (st.itemLists feedId).filterMap (fun itemId =>
      match st.itemDocs itemId with
      | some item => if keepSince since item then some item else none
      | none => none))).flatten

/-- `getAllFeedItems` of `lib/redis.ts`: collect, stable-sort by effective
date descending, then slice `[offset, offset + limit)` with JS-falsy
defaults `offset || 0` and `limit || 50`. -/
def getAllFeedItems (st : Store) (limit offset : Option Nat) (since : Option Int) :
    List FeedItem :=
  let sorted := List.insertionSort dateGe (collectAllItems st since)
  ((sorted.drop (jsOrNat offset 0)).take (jsOrNat limit 50))

/-- JavaScript `Set`-insertion: append the string if it is not already a
member (insertion order is preserved, as `Array.from` relies on). -/
def insertCat (acc : List String) (c : String) : List String :=
  if c ∈ acc then acc else acc ++ [c]

/-- One truthiness-guarded insertion `if (s) categories.add(s)`: an absent
or empty string is falsy and skipped. -/
def tagInsert (acc : List String) (o : Option String) : List String :=
  match o with
  | some s => if s = "" then acc else insertCat acc s
  | none => acc

/-- The per-tag step of `getAllCategories`:
`if (cat.name) add(cat.name); if (cat.term) add(cat.term)`. -/
def addTag (acc : List String) (cat : FeedCategory) : List String :=
  tagInsert (tagInsert acc cat.name) cat.term

/-- The per-item step of `getAllCategories`: fold over the item's category
tags (`item.category?.forEach`). -/
def addItemTags (acc : List String) (item : FeedItem) : List String :=
  (item.category.getD []).foldl addTag acc

/-- The per-feed step of `getAllCategories`: resolve the stored feed
document and fold in its feed-level categories (added unconditionally) and
the tags of the items embedded in the document. -/
def addFeedCats (st : Store) (acc : List String) (feedId : String) : List String :=
  match st.feedDocs feedId with
  | some feed => feed.items.foldl addItemTags (feed.categories.foldl insertCat acc)
  | none => acc

/-- The lexicographic string order used by the final
`Array.from(categories).sort()`. -/
def catLe (a b : String) : Prop :=
  a ≤ b

instance : DecidableRel catLe :=
  fun a b => inferInstanceAs (Decidable (a ≤ b))

instance : IsTotal String catLe :=
  ⟨fun a b => le_total a b⟩

instance : IsTrans String catLe :=
  ⟨fun _ _ _ hab hbc => le_trans hab hbc⟩

/-- `getAllCategories` of `lib/redis.ts`: walk the directory accumulating a
set of category strings from each stored feed document, then sort. -/
def getAllCategories (st : Store) : List String :=
  List.insertionSort catLe (st.directory.foldl (addFeedCats st) [])

/-- The order in which `ZREVRANGEBYSCORE` enumerates a ranked set: score
descending, ties by member string descending (the reverse of Redis's
ascending lexicographic tie order). -/
def zrevGe (p q : String × Int) : Prop :=
  q.2 < p.2 ∨ (p.2 = q.2 ∧ q.1 ≤ p.1)

instance : DecidableRel zrevGe :=
  fun p q => inferInstanceAs (Decidable (q.2 < p.2 ∨ (p.2 = q.2 ∧ q.1 ≤ p.1)))

/-- Redis `ZREVRANGEBYSCORE key +inf min LIMIT 0 limit`: the members whose
score is at least `minScore`, ordered by score descending, truncated to
`limit`. -/
def zrevrangebyscore (zs : List (String × Int)) (minScore : Int) (limit : Nat) :
    List String :=
  ((List.insertionSort zrevGe (zs.filter (fun p => decide (minScore ≤ p.2)))).take
    limit).map (fun p => p.1)

/-- The key `trending:{window}` of a global trending ranked set. -/
def windowKey (w : TimeWindow) : String :=
  r"trending:" ++ w.str

/-- The key `trending:feed:{feedId}:{window}` of a per-feed trending
ranked set. -/
def feedWindowKey (feedId : String) (w : TimeWindow) : String :=
  r"trending:feed:" ++ feedId ++ r":" ++ w.str

/-- The member-id phase of `getTrendingItems`/`getFeedTrending`: cutoff is
`now - windowSeconds * 1000`, limit defaults to `10` (JS falsy default). -/
def trendingMemberIds (st : Store) (key : String) (w : TimeWindow)
    (limit : Option Nat) (now : Int) : List String :=
  zrevrangebyscore (st.zsets key) (now - getTimeWindowSeconds w * 1000) (jsOrNat limit 10)

/-- `getTrendingItems` of `lib/redis.ts`: query the global window set and
resolve each returned id, skipping missing documents. -/
def getTrendingItems (st : Store) (w : TimeWindow) (limit : Option Nat) (now : Int) :
    List FeedItem :=
  (trendingMemberIds st (windowKey w) w limit now).filterMap st.itemDocs

/-- `getFeedTrending` of `lib/redis.ts`: the same query against the
per-feed window set. -/
def getFeedTrending (st : Store) (feedId : String) (w : TimeWindow)
    (limit : Option Nat) (now : Int) : List FeedItem :=
  (trendingMemberIds st (feedWindowKey feedId w) w limit now).filterMap st.itemDocs

/-- One `ZADD key now itemId` step of `trackItemView`. -/
def zaddStep (itemId : String) (now : Int) (key : String) (s : Store) : Store :=
  { s with zsets := upd s.zsets key (zadd (s.zsets key) now itemId) }

/-- The fixed window list `['1h', '24h', '7d', '30d']` of `trackItemView`. -/
def allWindows : List TimeWindow :=
  [TimeWindow.h1, TimeWindow.h24, TimeWindow.d7, TimeWindow.d30]

/-- `trackItemView` of `lib/redis.ts`: refresh the item's score to `now` in
all four global window sets, then scan the directory for the first feed
whose item list contains the id and refresh the four per-feed sets. -/
def trackItemView (st : Store) (itemId : String) (now : Int) : Store :=
  let st1 := allWindows.foldl (fun s w => zaddStep itemId now (windowKey w) s) st
  match st1.directory.find? (fun f => (st1.itemLists f).contains itemId) with
  | some feedId =>
      allWindows.foldl (fun s w => zaddStep itemId now (feedWindowKey feedId w) s) st1
  | none => st1

/-- The empty Redis state: no keys exist. -/
def emptyStore : Store :=
  { feedDocs := fun _ => none
    itemDocs := fun _ => none
    itemLists := fun _ => []
    directory := []
    zsets := fun _ => []
    uuidSeq := 0 }

/-- Reachable-state invariant used by the directory claims: the directory
has no duplicate members (it is a Redis set) and every stored feed document
sits at the key built from its own id (which is how `addFeed` stores it). -/
def WFStore (st : Store) : Prop :=
  st.directory.Nodup ∧ ∀ k f, st.feedDocs k = some f → f.options.id = k

/-- A concrete feed with no items, used by the C5 witness. -/
def exNewsFeed : Feed :=
  { items := [], options := { id := r"news", title := r"News" } }

/-- Concrete old items `a`, `b`, `c` of the C1 replace-semantics witness. -/
def exItemA : FeedItem := { title := r"A", id := some (r"a"), date := 1 }

def exItemB : FeedItem := { title := r"B", id := some (r"b"), date := 2 }

def exItemC : FeedItem := { title := r"C", id := some (r"c"), date := 3 }

/-- Concrete new items `d`, `e` of the C1 replace-semantics witness. -/
def exItemD : FeedItem := { title := r"D", id := some (r"d"), date := 4 }

def exItemE : FeedItem := { title := r"E", id := some (r"e"), date := 5 }

/-- The previously stored feed document of the C1 witness. -/
def exOldFeedC1 : Feed :=
  { items := [exItemA, exItemB, exItemC], options := { id := r"F", title := r"Old" } }

/-- The replacement feed of the C1 witness, carrying items `d` and `e`. -/
def exNewFeedC1 : Feed :=
  { items := [exItemD, exItemE], options := { id := r"F", title := r"New" } }

/-- The starting state of the C1 witness: feed `F` exists with stored items
`a`, `b`, `c`. -/
def exStoreC1 : Store :=
  { feedDocs := upd (fun _ => none) (r"F") (some exOldFeedC1)
    itemDocs :=
      upd (upd (upd (fun _ => none) (r"a") (some exItemA)) (r"b") (some exItemB))
        (r"c") (some exItemC)
    itemLists := upd (fun _ => []) (r"F") [r"a", r"b", r"c"]
    directory := [r"F"]
    zsets := fun _ => []
    uuidSeq := 0 }

/-- The category set described by the claim, restricted to what the code
actually reads: the union, over the directory, of each stored feed
document's own category list (added verbatim, even when empty) and the
name/term fields of the category tags of the items *embedded in that
document* (non-empty strings only).  This is the spec-side definition that
`getAllCategories` is compared against. -/
def docCategorySpec (st : Store) (c : String) : Prop :=
  ∃ feedId ∈ st.directory, ∃ feed, st.feedDocs feedId = some feed ∧
    (c ∈ feed.categories ∨
      ∃ item ∈ feed.items, ∃ target ∈ item.category.getD [],
        (target.name = some c ∨ target.term = some c) ∧ c ≠ "")

/-- The stored feed document of the C2 counterexample: no categories and no
embedded items. -/
def exFeedC2 : Feed :=
  { items := [], options := { id := r"F2", title := r"Plain" } }

/-- An item tagged `{term: "AI"}`, added to feed `F2` after creation. -/
def exItemAI : FeedItem :=
  { title := r"AI piece", id := some (r"i1"), date := 10,
    category := some [{ term := some (r"AI") }] }

/-- The C2 counterexample state before the item is added: feed `F2` exists
with an empty document. -/
def exStoreC2 : Store :=
  { feedDocs := upd (fun _ => none) (r"F2") (some exFeedC2)
    itemDocs := fun _ => none
    itemLists := fun _ => []
    directory := [r"F2"]
    zsets := fun _ => []
    uuidSeq := 0 }

/-- The C2 counterexample state: the `AI`-tagged item has been added to
feed `F2` through `addFeedItem`. -/
def exStoreC2After : Store :=
  (addFeedItem exStoreC2 (r"F2") exItemAI).2

/-- Items dated `t1 > t2 > t3 > t4` for the C3 pagination witness. -/
def exItemT1 : FeedItem := { title := r"t1", id := some (r"i1"), date := 40 }

def exItemT2 : FeedItem := { title := r"t2", id := some (r"i2"), date := 30 }

def exItemT3 : FeedItem := { title := r"t3", id := some (r"i3"), date := 20 }

def exItemT4 : FeedItem := { title := r"t4", id := some (r"i4"), date := 10 }

/-- The C3 witness state: four dated items spread across two feeds. -/
def exStoreC3 : Store :=
  { feedDocs := fun _ => none
    itemDocs :=
      upd (upd (upd (upd (fun _ => none) (r"i1") (some exItemT1)) (r"i2") (some exItemT2))
        (r"i3") (some exItemT3)) (r"i4") (some exItemT4)
    itemLists := upd (upd (fun _ => []) (r"f1") [r"i1", r"i3"]) (r"f2") [r"i2", r"i4"]
    directory := [r"f1", r"f2"]
    zsets := fun _ => []
    uuidSeq := 0 }

/-- The tracked item `X` of the C4 counterexample. -/
def exItemX : FeedItem := { title := r"item x", id := some (r"x"), date := 0 }

/-- Ten other item ids whose later views crowd `X` out of the top-10. -/
def exYIds : List String :=
  [r"y01", r"y02", r"y03", r"y04", r"y05", r"y06", r"y07", r"y08", r"y09", r"y10"]

/-- Documents for the crowding items. -/
def exYItem (n : String) : FeedItem := { title := n, id := some n, date := 0 }

/-- The C4 counterexample base state: the eleven item documents exist, no
feeds. -/
def exStoreC4 : Store :=
  { feedDocs := fun _ => none
    itemDocs := fun k =>
      if k = r"x" then some exItemX
      else if k ∈ exYIds then some (exYItem k) else none
    itemLists := fun _ => []
    directory := []
    zsets := fun _ => []
    uuidSeq := 0 }

/-- The later views crowding `X` out: each of the ten other items is
viewed once, at distinct times `1000 … 1009`. -/
def exViewsC4 : List (String × Int) :=
  [(r"y01", 1000), (r"y02", 1001), (r"y03", 1002), (r"y04", 1003), (r"y05", 1004),
    (r"y06", 1005), (r"y07", 1006), (r"y08", 1007), (r"y09", 1008), (r"y10", 1009)]

/-- The C4 counterexample state: `X` viewed at time `0`, then the ten other
items viewed later; no later view of `X`. -/
def exStoreC4After : Store :=
  exViewsC4.foldl (fun s q => trackItemView s q.1 q.2) (trackItemView exStoreC4 (r"x") 0)

/-! Definitions end here; everything below is a theorem. -/

@[simp] theorem upd_self {α : Type} (m : String → α) (k : String) (v : α) :
    upd m k v k = v := by
  simp [upd]

@[simp] theorem upd_other {α : Type} (m : String → α) (k q : String) (v : α)
    (h : q ≠ k) : upd m k v q = m q := by
  simp [upd, h]

@[simp] theorem upd_upd {α : Type} (m : String → α) (k : String) (v w : α) :
    upd (upd m k v) k w = upd m k w := by
  funext q
  by_cases h : q = k <;> simp [upd, h]

@[simp] theorem srem_srem (d : List String) (m : String) :
    srem (srem d m) m = srem d m := by
  simp [srem, List.filter_filter]

/-- The value of a fold of item-document deletions: a key is `none` if it
was deleted, and untouched otherwise. -/
theorem foldl_del_apply (ids : List String) (m : String → Option FeedItem) (k : String) :
    (ids.foldl (fun m i => upd m i none) m) k = if k ∈ ids then none else m k := by
  induction ids generalizing m with
  | nil => simp
  | cons i tl ih =>
      simp only [List.foldl_cons, ih, List.mem_cons]
      by_cases hk : k ∈ tl
      · simp [hk]
      · by_cases hki : k = i <;> simp [hk, hki, upd]

theorem WFStore.empty : WFStore emptyStore :=
  ⟨List.nodup_nil, fun _ _ h => Option.noConfusion h⟩

theorem pushItem_feedDocs (fid : String) (st : Store) (it : FeedItem) :
    (pushItem fid st it).2.feedDocs = st.feedDocs := by
  unfold pushItem assignId
  cases h : it.id with
  | none => simp
  | some i => by_cases hi : i = "" <;> simp [hi]

theorem pushItem_directory (fid : String) (st : Store) (it : FeedItem) :
    (pushItem fid st it).2.directory = st.directory := by
  unfold pushItem assignId
  cases h : it.id with
  | none => simp
  | some i => by_cases hi : i = "" <;> simp [hi]

theorem foldl_pushItem_feedDocs (fid : String) (items : List FeedItem) :
    ∀ st : Store,
      (items.foldl (fun s item => (pushItem fid s item).2) st).feedDocs = st.feedDocs := by
  induction items with
  | nil => intro st; rfl
  | cons it tl ih => intro st; rw [List.foldl_cons, ih, pushItem_feedDocs]

theorem foldl_pushItem_directory (fid : String) (items : List FeedItem) :
    ∀ st : Store,
      (items.foldl (fun s item => (pushItem fid s item).2) st).directory = st.directory := by
  induction items with
  | nil => intro st; rfl
  | cons it tl ih => intro st; rw [List.foldl_cons, ih, pushItem_directory]

theorem addFeed_feedDocs (st : Store) (feed : Feed) :
    (addFeed st feed).2.feedDocs = upd st.feedDocs feed.options.id (some feed) := by
  unfold addFeed
  simp only [foldl_pushItem_feedDocs]
  by_cases h : (st.feedDocs feed.options.id).isSome <;> simp [h]

theorem addFeed_directory (st : Store) (feed : Feed) :
    (addFeed st feed).2.directory = sadd st.directory feed.options.id := by
  unfold addFeed
  simp only [foldl_pushItem_directory]
  by_cases h : (st.feedDocs feed.options.id).isSome <;> simp [h]

theorem deleteFeed_feedDocs (st : Store) (F : String) :
    (deleteFeed st F).feedDocs = upd st.feedDocs F none :=
  rfl

theorem deleteFeed_directory (st : Store) (F : String) :
    (deleteFeed st F).directory = srem st.directory F :=
  rfl

theorem count_id_filterMap (docs : String → Option Feed) (F : String) (fF : Feed)
    (hWF : ∀ k f, docs k = some f → f.options.id = k)
    (hF : docs F = some fF)
    (d : List String) :
    ((d.filterMap docs).map (fun f => f.options.id)).count F = d.count F := by
  induction d with
  | nil => simp
  | cons k tl ih =>
      by_cases hk : k = F
      · subst hk
        have hid : fF.options.id = k := hWF k fF hF
        simp [List.filterMap_cons, hF, hid, ih]
      · cases hdk : docs k with
        | none => simp [List.filterMap_cons, hdk, ih, List.count_cons, hk]
        | some f =>
            have hid : f.options.id = k := hWF k f hdk
            simp [List.filterMap_cons, hdk, hid, ih, List.count_cons, hk]

theorem count_sadd_self (d : List String) (F : String) (hnd : d.Nodup) :
    (sadd d F).count F = 1 := by
  unfold sadd
  by_cases h : F ∈ d
  · simp only [h, if_true]
    exact List.count_eq_one_of_mem hnd h
  · simp [h, List.count_eq_zero_of_not_mem h]

end Rss

/-- C5: in every well-formed state, after `addFeed(F)` succeeds `F` appears
among the ids of `listFeeds()` exactly once (re-adding never duplicates the
directory entry), and after `deleteFeed(F)` the id `F` is neither a
resolvable `getFeed(F)` nor among the ids of `listFeeds()`. -/
theorem Rss.feed_directory_consistency (st : Rss.Store) (feed : Rss.Feed) (F : String)
    (hwf : Rss.WFStore st) :
    ((Rss.getFeeds (Rss.addFeed st feed).2).map (fun f => f.options.id)).count
        feed.options.id = 1 ∧
    Rss.getFeed (Rss.deleteFeed st F) F = none ∧
    F ∉ (Rss.getFeeds (Rss.deleteFeed st F)).map (fun f => f.options.id) := by
  obtain ⟨hnd, hids⟩ := hwf
  refine ⟨?_, ?_, ?_⟩
  · unfold Rss.getFeeds
    rw [Rss.addFeed_feedDocs, Rss.addFeed_directory]
    have hwf2 : ∀ k f,
        Rss.upd st.feedDocs feed.options.id (some feed) k = some f → f.options.id = k := by
      intro k f h
      by_cases hk : k = feed.options.id
      · subst hk
        rw [Rss.upd_self] at h
        cases h
        rfl
      · rw [Rss.upd_other _ _ _ _ hk] at h
        exact hids k f h
    rw [Rss.count_id_filterMap _ feed.options.id feed hwf2
      (Rss.upd_self st.feedDocs feed.options.id (some feed))]
    exact Rss.count_sadd_self st.directory feed.options.id hnd
  · simp [Rss.getFeed, Rss.deleteFeed_feedDocs, Rss.upd]
  · intro hmem
    rw [List.mem_map] at hmem
    obtain ⟨f, hf, hfid⟩ := hmem
    unfold Rss.getFeeds at hf
    rw [Rss.deleteFeed_feedDocs, Rss.deleteFeed_directory] at hf
    rw [List.mem_filterMap] at hf
    obtain ⟨k, hkmem, hdk⟩ := hf
    have hkne : k ≠ F := by
      unfold Rss.srem at hkmem
      simpa using (List.mem_filter.mp hkmem).2
    rw [Rss.upd_other _ _ _ _ hkne] at hdk
    exact hkne ((hids k f hdk).symm.trans hfid)

/-- Witness for C5: the empty store, a concrete feed and a concrete id. -/
theorem Rss.feed_directory_consistency_witness :
    Rss.WFStore Rss.emptyStore ∧
    (((Rss.getFeeds (Rss.addFeed Rss.emptyStore Rss.exNewsFeed).2).map
          (fun f => f.options.id)).count Rss.exNewsFeed.options.id = 1 ∧
      Rss.getFeed (Rss.deleteFeed Rss.emptyStore (r"gone")) (r"gone") = none ∧
      (r"gone") ∉ (Rss.getFeeds (Rss.deleteFeed Rss.emptyStore (r"gone"))).map
        (fun f => f.options.id)) :=
  ⟨Rss.WFStore.empty,
    Rss.feed_directory_consistency Rss.emptyStore Rss.exNewsFeed (r"gone")
      Rss.WFStore.empty⟩

/-- C6: deleting a feed twice in a row leaves exactly the state the first
delete produced — the second `deleteFeed` call changes nothing (deleting
absent keys and ranging over an absent list are no-ops). -/
theorem Rss.deleteFeed_idempotent (st : Rss.Store) (F : String) :
    Rss.deleteFeed (Rss.deleteFeed st F) F = Rss.deleteFeed st F := by
  simp [Rss.deleteFeed]

/-- C7: `getItem(feedId, itemId)` is a global lookup of `item:{itemId}`;
the `feedId` argument never influences the result, even for feed ids that
do not exist. -/
theorem Rss.getFeedItem_ignores_feedId (st : Rss.Store) (f1 f2 i : String) :
    Rss.getFeedItem st f1 i = Rss.getFeedItem st f2 i :=
  rfl

/-- C8: `addItem` performs no feed-existence check: for every `feedId` and
item it succeeds, stores the item document under the assigned id, pushes
that id to the front of `feed:{feedId}:items`, and leaves the feed
documents and the directory untouched (so orphan item lists are possible). -/
theorem Rss.addFeedItem_no_feed_check (st : Rss.Store) (feedId : String) (item : Rss.FeedItem) :
    (Rss.addFeedItem st feedId item).2.itemDocs (Rss.addFeedItem st feedId item).1
        = some { item with id := some (Rss.addFeedItem st feedId item).1 } ∧
    (Rss.addFeedItem st feedId item).2.itemLists feedId
        = (Rss.addFeedItem st feedId item).1 :: st.itemLists feedId ∧
    (Rss.addFeedItem st feedId item).2.feedDocs = st.feedDocs ∧
    (Rss.addFeedItem st feedId item).2.directory = st.directory := by
  unfold Rss.addFeedItem Rss.pushItem Rss.assignId
  cases h : item.id with
  | none => simp
  | some i => by_cases hi : i = "" <;> simp [h, hi]

/-- C9: absence is a normal return value, never an error: a missing feed
document makes `getFeed` return `none`, and a missing item document makes
`getItem` return `none`; neither read has an error path for absence. -/
theorem Rss.absence_returns_none (st : Rss.Store) (fid iid k : String) :
    (st.feedDocs k = none → Rss.getFeed st k = none) ∧
    (st.itemDocs iid = none → Rss.getFeedItem st fid iid = none) := by
  constructor <;> intro h <;> simp [Rss.getFeed, Rss.getFeedItem, h]

/-- Witness for C9 at the empty store and concrete ids. -/
theorem Rss.absence_returns_none_witness :
    (Rss.emptyStore.feedDocs (r"a") = none ∧ Rss.getFeed Rss.emptyStore (r"a") = none) ∧
    (Rss.emptyStore.itemDocs (r"b") = none ∧
      Rss.getFeedItem Rss.emptyStore (r"f") (r"b") = none) :=
  ⟨⟨rfl, (Rss.absence_returns_none Rss.emptyStore (r"f") (r"b") (r"a")).1 rfl⟩,
    ⟨rfl, (Rss.absence_returns_none Rss.emptyStore (r"f") (r"b") (r"a")).2 rfl⟩⟩

/-- C1: replace semantics of `addFeed`.  If feed `F` already exists with
indexed items `a`, `b`, `c` and `addFeed` is called again with id `F` and
items `d`, `e` (with their own distinct, non-empty ids), then the call
returns `F`, `listItems(F)` is exactly `[e, d]` (insertion order, newest
pushed to the front), and `getItem` on each of `a`, `b`, `c` is absent:
the old item set is deleted, never merged. -/
theorem Rss.addFeed_replace_semantics
    (st : Rss.Store) (F a b c dId eId : String) (oldFeed : Rss.Feed)
    (dIt eIt : Rss.FeedItem) (newFeed : Rss.Feed)
    (hold : st.feedDocs F = some oldFeed)
    (hlist : st.itemLists F = [a, b, c])
    (hid : newFeed.options.id = F)
    (hitems : newFeed.items = [dIt, eIt])
    (hd : dIt.id = some dId) (he : eIt.id = some eId)
    (hdne : dId ≠ "") (hene : eId ≠ "")
    (hde : dId ≠ eId)
    (had : a ≠ dId) (hae : a ≠ eId)
    (hbd : b ≠ dId) (hbe : b ≠ eId)
    (hcd : c ≠ dId) (hce : c ≠ eId) :
    (Rss.addFeed st newFeed).1 = F ∧
    Rss.getFeedItems (Rss.addFeed st newFeed).2 F
      = [{ eIt with id := some eId }, { dIt with id := some dId }] ∧
    Rss.getFeedItem (Rss.addFeed st newFeed).2 F a = none ∧
    Rss.getFeedItem (Rss.addFeed st newFeed).2 F b = none ∧
    Rss.getFeedItem (Rss.addFeed st newFeed).2 F c = none := by
  simp only [Rss.addFeed, hid, hitems, hold, hlist, Option.isSome_some, if_true,
    List.foldl_cons, List.foldl_nil, Rss.pushItem, Rss.assignId, hd, he,
    if_neg hdne, if_neg hene]
  refine ⟨trivial, ?_, ?_, ?_, ?_⟩
  · simp [Rss.getFeedItems, Rss.upd, hde]
  · simp [Rss.getFeedItem, Rss.upd, had, hae, Rss.foldl_del_apply]
  · simp [Rss.getFeedItem, Rss.upd, hbd, hbe, Rss.foldl_del_apply]
  · simp [Rss.getFeedItem, Rss.upd, hcd, hce, Rss.foldl_del_apply]

/-- Witness for C1 at a concrete store holding feed `F` with items
`a`, `b`, `c`, re-added with items `d`, `e`. -/
theorem Rss.addFeed_replace_semantics_witness :
    (Rss.exStoreC1.feedDocs (r"F") = some Rss.exOldFeedC1 ∧
      Rss.exStoreC1.itemLists (r"F") = [r"a", r"b", r"c"] ∧
      Rss.exNewFeedC1.options.id = r"F" ∧
      Rss.exNewFeedC1.items = [Rss.exItemD, Rss.exItemE]) ∧
    ((Rss.addFeed Rss.exStoreC1 Rss.exNewFeedC1).1 = r"F" ∧
      Rss.getFeedItems (Rss.addFeed Rss.exStoreC1 Rss.exNewFeedC1).2 (r"F")
        = [{ Rss.exItemE with id := some (r"e") },
            { Rss.exItemD with id := some (r"d") }] ∧
      Rss.getFeedItem (Rss.addFeed Rss.exStoreC1 Rss.exNewFeedC1).2 (r"F") (r"a") = none ∧
      Rss.getFeedItem (Rss.addFeed Rss.exStoreC1 Rss.exNewFeedC1).2 (r"F") (r"b") = none ∧
      Rss.getFeedItem (Rss.addFeed Rss.exStoreC1 Rss.exNewFeedC1).2 (r"F") (r"c") = none) :=
  ⟨⟨by decide, by decide, rfl, rfl⟩,
    Rss.addFeed_replace_semantics Rss.exStoreC1 (r"F") (r"a") (r"b") (r"c") (r"d") (r"e")
      Rss.exOldFeedC1 Rss.exItemD Rss.exItemE Rss.exNewFeedC1
      (by decide) (by decide) rfl rfl rfl rfl
      (by decide) (by decide) (by decide) (by decide) (by decide)
      (by decide) (by decide) (by decide) (by decide)⟩

/-- Auxiliary bound: the id phase of a trending query returns at most the
effective limit. -/
theorem Rss.trendingMemberIds_length_le (st : Rss.Store) (key : String)
    (w : Rss.TimeWindow) (o : Option Nat) (now : Int) :
    (Rss.trendingMemberIds st key w o now).length ≤ Rss.jsOrNat o 10 := by
  unfold Rss.trendingMemberIds Rss.zrevrangebyscore
  simp [List.length_take]

/-- C10 (counterexample): an explicit `limit: 0` does not cap the result of
`listAllItems` at length `0`; the JS-falsy default `options?.limit || 50`
replaces it by `50`, and a store with three indexed items returns all
three. -/
theorem Rss.limit_zero_not_capped :
    ¬ (Rss.getAllFeedItems Rss.exStoreC1 (some 0) none none).length ≤ 0 := by
  decide

/-- C10 (amended): with the limit omitted, `listAllItems` returns at most
50 items and the two trending queries at most 10; an explicit **positive**
limit caps the result length in all three operations (an explicit limit of
`0` is falsy in JS and behaves like an omitted limit). -/
theorem Rss.default_and_positive_limits (st : Rss.Store) (w : Rss.TimeWindow)
    (fid : String) (off : Option Nat) (since : Option Int) (now : Int) :
    (Rss.getAllFeedItems st none off since).length ≤ 50 ∧
    (∀ L, 0 < L → (Rss.getAllFeedItems st (some L) off since).length ≤ L) ∧
    (Rss.getTrendingItems st w none now).length ≤ 10 ∧
    (∀ L, 0 < L → (Rss.getTrendingItems st w (some L) now).length ≤ L) ∧
    (Rss.getFeedTrending st fid w none now).length ≤ 10 ∧
    (∀ L, 0 < L → (Rss.getFeedTrending st fid w (some L) now).length ≤ L) := by
  have hall : ∀ lim : Option Nat,
      (Rss.getAllFeedItems st lim off since).length ≤ Rss.jsOrNat lim 50 := by
    intro lim
    unfold Rss.getAllFeedItems
    simp [List.length_take]
  have htrend : ∀ lim : Option Nat,
      (Rss.getTrendingItems st w lim now).length ≤ Rss.jsOrNat lim 10 := by
    intro lim
    unfold Rss.getTrendingItems
    exact le_trans (List.length_filterMap_le _ _)
      (Rss.trendingMemberIds_length_le st (Rss.windowKey w) w lim now)
  have hfeed : ∀ lim : Option Nat,
      (Rss.getFeedTrending st fid w lim now).length ≤ Rss.jsOrNat lim 10 := by
    intro lim
    unfold Rss.getFeedTrending
    exact le_trans (List.length_filterMap_le _ _)
      (Rss.trendingMemberIds_length_le st (Rss.feedWindowKey fid w) w lim now)
  have hpos : ∀ L : Nat, 0 < L → ∀ d : Nat, Rss.jsOrNat (some L) d = L := by
    intro L hL d
    simp [Rss.jsOrNat, Nat.pos_iff_ne_zero.mp hL]
  refine ⟨hall none, fun L hL => ?_, htrend none, fun L hL => ?_, hfeed none, fun L hL => ?_⟩
  · have := hall (some L)
    rwa [hpos L hL 50] at this
  · have := htrend (some L)
    rwa [hpos L hL 10] at this
  · have := hfeed (some L)
    rwa [hpos L hL 10] at this

/-- Witness for the amended C10 at the empty store and limit `3`. -/
theorem Rss.default_and_positive_limits_witness :
    (Rss.getAllFeedItems Rss.emptyStore none none none).length ≤ 50 ∧
    (0 < 3 ∧ (Rss.getAllFeedItems Rss.emptyStore (some 3) none none).length ≤ 3) ∧
    (Rss.getTrendingItems Rss.emptyStore Rss.TimeWindow.h1 none 0).length ≤ 10 ∧
    (0 < 3 ∧
      (Rss.getTrendingItems Rss.emptyStore Rss.TimeWindow.h1 (some 3) 0).length ≤ 3) ∧
    (Rss.getFeedTrending Rss.emptyStore (r"F") Rss.TimeWindow.h1 none 0).length ≤ 10 ∧
    (0 < 3 ∧
      (Rss.getFeedTrending Rss.emptyStore (r"F") Rss.TimeWindow.h1 (some 3) 0).length ≤ 3) :=
  ⟨(Rss.default_and_positive_limits Rss.emptyStore Rss.TimeWindow.h1 (r"F") none none 0).1,
    ⟨by decide,
      (Rss.default_and_positive_limits Rss.emptyStore Rss.TimeWindow.h1 (r"F") none none
          0).2.1 3 (by decide)⟩,
    (Rss.default_and_positive_limits Rss.emptyStore Rss.TimeWindow.h1 (r"F") none none
        0).2.2.1,
    ⟨by decide,
      (Rss.default_and_positive_limits Rss.emptyStore Rss.TimeWindow.h1 (r"F") none none
          0).2.2.2.1 3 (by decide)⟩,
    (Rss.default_and_positive_limits Rss.emptyStore Rss.TimeWindow.h1 (r"F") none none
        0).2.2.2.2.1,
    ⟨by decide,
      (Rss.default_and_positive_limits Rss.emptyStore Rss.TimeWindow.h1 (r"F") none none
          0).2.2.2.2.2 3 (by decide)⟩⟩

theorem mem_insertCat {acc : List String} {c x : String} :
    x ∈ Rss.insertCat acc c ↔ x ∈ acc ∨ x = c := by
  unfold Rss.insertCat
  by_cases h : c ∈ acc
  · simp only [h, if_true]
    exact ⟨Or.inl, fun hx => hx.elim id (fun he => he ▸ h)⟩
  · simp [h]

theorem mem_foldl_insertCat (l : List String) (acc : List String) (x : String) :
    x ∈ l.foldl Rss.insertCat acc ↔ x ∈ acc ∨ x ∈ l := by
  induction l generalizing acc with
  | nil => simp
  | cons a tl ih =>
      rw [List.foldl_cons, ih, mem_insertCat, List.mem_cons]
      tauto

theorem mem_tagInsert {acc : List String} {o : Option String} {x : String} :
    x ∈ Rss.tagInsert acc o ↔ x ∈ acc ∨ (o = some x ∧ x ≠ "") := by
  cases o with
  | none => simp [Rss.tagInsert]
  | some s =>
      by_cases hs : s = ""
      · subst hs
        simp only [Rss.tagInsert, if_pos rfl, Option.some.injEq]
        constructor
        · exact Or.inl
        · rintro (h | ⟨rfl, hne⟩)
          · exact h
          · exact absurd rfl hne
      · simp only [Rss.tagInsert, if_neg hs, mem_insertCat, Option.some.injEq]
        constructor
        · rintro (h | rfl)
          · exact Or.inl h
          · exact Or.inr ⟨rfl, hs⟩
        · rintro (h | ⟨rfl, _⟩)
          · exact Or.inl h
          · exact Or.inr rfl

theorem mem_addTag {acc : List String} {tag : Rss.FeedCategory} {x : String} :
    x ∈ Rss.addTag acc tag ↔
      x ∈ acc ∨ ((tag.name = some x ∨ tag.term = some x) ∧ x ≠ "") := by
  unfold Rss.addTag
  rw [mem_tagInsert, mem_tagInsert]
  tauto

theorem mem_foldl_addTag (tags : List Rss.FeedCategory) (acc : List String) (x : String) :
    x ∈ tags.foldl Rss.addTag acc ↔
      x ∈ acc ∨ ∃ tag ∈ tags, (tag.name = some x ∨ tag.term = some x) ∧ x ≠ "" := by
  induction tags generalizing acc with
  | nil => simp
  | cons t0 tl ih =>
      rw [List.foldl_cons, ih, mem_addTag]
      simp only [List.mem_cons]
      constructor
      · rintro ((h | h) | ⟨tag, htag, hx⟩)
        · exact Or.inl h
        · exact Or.inr ⟨t0, Or.inl rfl, h⟩
        · exact Or.inr ⟨tag, Or.inr htag, hx⟩
      · rintro (h | ⟨tag, (rfl | htag), hx⟩)
        · exact Or.inl (Or.inl h)
        · exact Or.inl (Or.inr hx)
        · exact Or.inr ⟨tag, htag, hx⟩

theorem mem_addItemTags {acc : List String} {item : Rss.FeedItem} {x : String} :
    x ∈ Rss.addItemTags acc item ↔
      x ∈ acc ∨ ∃ tag ∈ item.category.getD [],
        (tag.name = some x ∨ tag.term = some x) ∧ x ≠ "" :=
  mem_foldl_addTag (item.category.getD []) acc x

theorem mem_foldl_addItemTags (items : List Rss.FeedItem) (acc : List String) (x : String) :
    x ∈ items.foldl Rss.addItemTags acc ↔
      x ∈ acc ∨ ∃ item ∈ items, ∃ tag ∈ item.category.getD [],
        (tag.name = some x ∨ tag.term = some x) ∧ x ≠ "" := by
  induction items generalizing acc with
  | nil => simp
  | cons it tl ih =>
      rw [List.foldl_cons, ih, mem_addItemTags]
      simp only [List.mem_cons]
      constructor
      · rintro ((h | h) | ⟨item, hitem, hx⟩)
        · exact Or.inl h
        · exact Or.inr ⟨it, Or.inl rfl, h⟩
        · exact Or.inr ⟨item, Or.inr hitem, hx⟩
      · rintro (h | ⟨item, (rfl | hitem), hx⟩)
        · exact Or.inl (Or.inl h)
        · exact Or.inl (Or.inr hx)
        · exact Or.inr ⟨item, hitem, hx⟩

theorem mem_addFeedCats {st : Rss.Store} {acc : List String} {feedId x : String} :
    x ∈ Rss.addFeedCats st acc feedId ↔
      x ∈ acc ∨ ∃ feed, st.feedDocs feedId = some feed ∧
        (x ∈ feed.categories ∨
          ∃ item ∈ feed.items, ∃ tag ∈ item.category.getD [],
            (tag.name = some x ∨ tag.term = some x) ∧ x ≠ "") := by
  unfold Rss.addFeedCats
  cases h : st.feedDocs feedId with
  | none => simp [h]
  | some feed =>
      rw [mem_foldl_addItemTags, mem_foldl_insertCat]
      simp only [h, Option.some.injEq]
      constructor
      · rintro ((ha | hc) | hit)
        · exact Or.inl ha
        · exact Or.inr ⟨feed, rfl, Or.inl hc⟩
        · exact Or.inr ⟨feed, rfl, Or.inr hit⟩
      · rintro (ha | ⟨f, rfl, (hc | hit)⟩)
        · exact Or.inl (Or.inl ha)
        · exact Or.inl (Or.inr hc)
        · exact Or.inr hit

theorem mem_foldl_addFeedCats (st : Rss.Store) (d : List String) (acc : List String)
    (x : String) :
    x ∈ d.foldl (Rss.addFeedCats st) acc ↔
      x ∈ acc ∨ ∃ fid ∈ d, ∃ feed, st.feedDocs fid = some feed ∧
        (x ∈ feed.categories ∨
          ∃ item ∈ feed.items, ∃ tag ∈ item.category.getD [],
            (tag.name = some x ∨ tag.term = some x) ∧ x ≠ "") := by
  induction d generalizing acc with
  | nil => simp
  | cons fid0 tl ih =>
      rw [List.foldl_cons, ih, mem_addFeedCats]
      simp only [List.mem_cons]
      constructor
      · rintro ((h | h) | ⟨fid, hfid, hx⟩)
        · exact Or.inl h
        · exact Or.inr ⟨fid0, Or.inl rfl, h⟩
        · exact Or.inr ⟨fid, Or.inr hfid, hx⟩
      · rintro (h | ⟨fid, (rfl | hfid), hx⟩)
        · exact Or.inl (Or.inl h)
        · exact Or.inl (Or.inr hx)
        · exact Or.inr ⟨fid, hfid, hx⟩

theorem nodup_insertCat (acc : List String) (c : String) (h : acc.Nodup) :
    (Rss.insertCat acc c).Nodup := by
  unfold Rss.insertCat
  by_cases hc : c ∈ acc
  · simpa [hc]
  · simp [hc, List.nodup_append, h]

theorem nodup_tagInsert {acc : List String} (o : Option String) (h : acc.Nodup) :
    (Rss.tagInsert acc o).Nodup := by
  cases o with
  | none => simpa [Rss.tagInsert]
  | some s =>
      by_cases hs : s = "" <;> simp [Rss.tagInsert, hs, h, nodup_insertCat]

theorem nodup_foldl {β : Type} (f : List String → β → List String)
    (hf : ∀ acc b, acc.Nodup → (f acc b).Nodup) (l : List β) :
    ∀ acc : List String, acc.Nodup → (l.foldl f acc).Nodup := by
  induction l with
  | nil => intro acc h; simpa
  | cons b tl ih => intro acc h; rw [List.foldl_cons]; exact ih _ (hf acc b h)

theorem nodup_addTag (acc : List String) (tag : Rss.FeedCategory) (h : acc.Nodup) :
    (Rss.addTag acc tag).Nodup :=
  nodup_tagInsert _ (nodup_tagInsert _ h)

theorem nodup_addItemTags (acc : List String) (item : Rss.FeedItem) (h : acc.Nodup) :
    (Rss.addItemTags acc item).Nodup :=
  nodup_foldl Rss.addTag nodup_addTag _ acc h

theorem nodup_addFeedCats (st : Rss.Store) (acc : List String) (fid : String)
    (h : acc.Nodup) : (Rss.addFeedCats st acc fid).Nodup := by
  unfold Rss.addFeedCats
  cases hd : st.feedDocs fid with
  | none => simpa
  | some feed =>
      exact nodup_foldl Rss.addItemTags nodup_addItemTags _ _
        (nodup_foldl Rss.insertCat nodup_insertCat _ _ h)

/-- C2 (counterexample): an item added to an existing feed through
`addItem` belongs to the feed (it is indexed and resolvable), carries the
category tag `{term: "AI"}`, and yet `"AI"` is not in `listCategories()` —
the category scan reads only the items embedded in the stored feed
document, not the live item list. -/
theorem Rss.getAllCategories_misses_addFeedItem_tags :
    Rss.exStoreC2After.itemLists (r"F2") = [r"i1"] ∧
    Rss.exStoreC2After.itemDocs (r"i1") = some { Rss.exItemAI with id := some (r"i1") } ∧
    (r"AI") ∉ Rss.getAllCategories Rss.exStoreC2After := by
  refine ⟨by decide, by decide, by decide⟩

/-- C2 (amended): `listCategories()` is the case-sensitive, deduplicated,
lexicographically sorted union of every feed's own category list and the
category-tag name/term fields of the items *embedded in each stored feed
document* (the snapshot supplied at feed creation); items added later via
`addItem` do not contribute. -/
theorem Rss.getAllCategories_doc_union (st : Rss.Store) :
    (Rss.getAllCategories st).Sorted Rss.catLe ∧
    (Rss.getAllCategories st).Nodup ∧
    ∀ c : String, c ∈ Rss.getAllCategories st ↔ Rss.docCategorySpec st c := by
  refine ⟨List.sorted_insertionSort Rss.catLe _, ?_, ?_⟩
  · unfold Rss.getAllCategories
    rw [(List.perm_insertionSort Rss.catLe _).nodup_iff]
    exact nodup_foldl (Rss.addFeedCats st) (fun acc fid => nodup_addFeedCats st acc fid)
      st.directory [] List.nodup_nil
  · intro c
    unfold Rss.getAllCategories Rss.docCategorySpec
    rw [List.mem_insertionSort, mem_foldl_addFeedCats]
    simp

/-- A page of `getAllFeedItems` with a positive explicit limit is a slice
of the date-sorted full sequence. -/
theorem getAllFeedItems_page (st : Rss.Store) (L o : Nat) (hL : 0 < L) :
    Rss.getAllFeedItems st (some L) (some o) none
      = ((List.insertionSort Rss.dateGe (Rss.collectAllItems st none)).drop o).take L := by
  unfold Rss.getAllFeedItems
  have h1 : Rss.jsOrNat (some L) 50 = L := by
    simp [Rss.jsOrNat, Nat.pos_iff_ne_zero.mp hL]
  have h2 : Rss.jsOrNat (some o) 0 = o := by
    by_cases ho : o = 0 <;> simp [Rss.jsOrNat, ho]
  rw [h1, h2]

/-- Concatenating the `[k*L, k*L + L)` slices of a list, for `k` up to any
`N` large enough, reproduces the whole list. -/
theorem flatten_pages {α : Type} (L : Nat) (hL : 0 < L) :
    ∀ (N : Nat) (l : List α), l.length ≤ N * L →
      ((List.range N).map (fun k => (l.drop (k * L)).take L)).flatten = l := by
  intro N
  induction N with
  | zero =>
      intro l h
      have hz : l.length = 0 := Nat.le_zero.mp (by simpa using h)
      simp [List.eq_nil_of_length_eq_zero hz]
  | succ N ih =>
      intro l h
      rw [List.range_succ_eq_map, List.map_cons, List.map_map, List.flatten_cons]
      have hpages : (List.range N).map ((fun k => (l.drop (k * L)).take L) ∘ Nat.succ)
          = (List.range N).map (fun k => (((l.drop L).drop (k * L)).take L)) := by
        apply List.map_congr_left
        intro k _
        simp only [Function.comp]
        rw [List.drop_drop, Nat.succ_mul]
        rw [Nat.add_comm]
      rw [hpages, ih (l.drop L) ?hlen]
      · simpa using List.take_append_drop L l
      · have := l.length_drop L
        rw [this]
        have hlen2 : l.length ≤ N * L + L := by
          simpa [Nat.succ_mul] using h
        omega

/-- C3: for every stored corpus, the full sequence behind `listAllItems`
is the stable descending effective-date sort of the encounter-order merge:
it is sorted by effective date descending, every group of date-tied items
keeps its input encounter order, and for every positive page size `L`
the concatenation of the pages `{limit: L, offset: k*L}` for `k < N`
(any `N` covering the corpus) reproduces exactly that full sequence. -/
theorem Rss.getAllFeedItems_pagination_stable (st : Rss.Store) (L : Nat) (hL : 0 < L) :
    (List.insertionSort Rss.dateGe (Rss.collectAllItems st none)).Sorted Rss.dateGe ∧
    (∀ d : Int,
      (List.insertionSort Rss.dateGe (Rss.collectAllItems st none)).filter
          (fun it => Rss.effectiveDate it = d)
        = (Rss.collectAllItems st none).filter (fun it => Rss.effectiveDate it = d)) ∧
    ∀ N : Nat, (Rss.collectAllItems st none).length ≤ N * L →
      ((List.range N).map (fun k => Rss.getAllFeedItems st (some L) (some (k * L)) none)).flatten
        = List.insertionSort Rss.dateGe (Rss.collectAllItems st none) := by
  refine ⟨List.sorted_insertionSort Rss.dateGe _, ?_, ?_⟩
  · intro d
    set l := Rss.collectAllItems st none with hl
    set p : Rss.FeedItem → Bool := fun it => decide (Rss.effectiveDate it = d) with hp
    have hmemp : ∀ x ∈ l.filter p, Rss.effectiveDate x = d := by
      intro x hx
      have := (List.mem_filter.mp hx).2
      simpa [hp] using this
    have hpw : (l.filter p).Pairwise Rss.dateGe := by
      apply List.pairwise_of_forall_mem_list
      intro a ha b hb
      unfold Rss.dateGe
      rw [hmemp a ha, hmemp b hb]
    have h1 : List.Sublist (l.filter p) (List.insertionSort Rss.dateGe l) :=
      List.sublist_insertionSort hpw (List.filter_sublist l)
    have h2 : List.Sublist ((l.filter p).filter p)
        ((List.insertionSort Rss.dateGe l).filter p) :=
      h1.filter p
    have h3 : (l.filter p).filter p = l.filter p := by
      rw [List.filter_filter]
      apply List.filter_congr
      intro x _
      exact Bool.and_self (p x)
    rw [h3] at h2
    have hperm : List.Perm ((List.insertionSort Rss.dateGe l).filter p) (l.filter p) :=
      (List.perm_insertionSort Rss.dateGe l).filter p
    exact (h2.eq_of_length hperm.length_eq.symm).symm
  · intro N hN
    have hpage : ∀ k : Nat,
        Rss.getAllFeedItems st (some L) (some (k * L)) none
          = ((List.insertionSort Rss.dateGe (Rss.collectAllItems st none)).drop
              (k * L)).take L :=
      fun k => getAllFeedItems_page st L (k * L) hL
    calc ((List.range N).map
            (fun k => Rss.getAllFeedItems st (some L) (some (k * L)) none)).flatten
        = ((List.range N).map
            (fun k => (((List.insertionSort Rss.dateGe
              (Rss.collectAllItems st none)).drop (k * L)).take L))).flatten := by
          rw [List.map_congr_left (fun k _ => hpage k)]
      _ = List.insertionSort Rss.dateGe (Rss.collectAllItems st none) := by
          apply flatten_pages L hL N
          rw [List.length_insertionSort]
          exact hN

/-- Witness for C3 at a four-item, two-feed store with page size `2`,
tie-date `30` and page count `2`. -/
theorem Rss.getAllFeedItems_pagination_stable_witness :
    0 < 2 ∧
    (List.insertionSort Rss.dateGe (Rss.collectAllItems Rss.exStoreC3 none)).Sorted
        Rss.dateGe ∧
    ((List.insertionSort Rss.dateGe (Rss.collectAllItems Rss.exStoreC3 none)).filter
        (fun it => Rss.effectiveDate it = 30)
      = (Rss.collectAllItems Rss.exStoreC3 none).filter
          (fun it => Rss.effectiveDate it = 30)) ∧
    ((Rss.collectAllItems Rss.exStoreC3 none).length ≤ 2 * 2 ∧
      ((List.range 2).map
          (fun k => Rss.getAllFeedItems Rss.exStoreC3 (some 2) (some (k * 2)) none)).flatten
        = List.insertionSort Rss.dateGe (Rss.collectAllItems Rss.exStoreC3 none)) :=
  ⟨by decide,
    (Rss.getAllFeedItems_pagination_stable Rss.exStoreC3 2 (by decide)).1,
    (Rss.getAllFeedItems_pagination_stable Rss.exStoreC3 2 (by decide)).2.1 30,
    ⟨by decide,
      (Rss.getAllFeedItems_pagination_stable Rss.exStoreC3 2 (by decide)).2.2 2
        (by decide)⟩⟩

/-- `ZADD` always leaves the member present with exactly the given score. -/
theorem zadd_mem_self (zs : List (String × Int)) (sc : Int) (m : String) :
    (m, sc) ∈ Rss.zadd zs sc m := by
  unfold Rss.zadd
  by_cases h : zs.any (fun p => p.1 = m)
  · simp only [h, if_true]
    rw [List.any_eq_true] at h
    obtain ⟨p, hp, hpm⟩ := h
    rw [List.mem_map]
    refine ⟨p, hp, ?_⟩
    simp only [decide_eq_true_eq] at hpm
    simp [hpm]
  · simp [h]

/-- After `ZADD`, every entry carrying the member's name has the new
score (the update rewrites every occurrence). -/
theorem zadd_score_eq (zs : List (String × Int)) (sc : Int) (m : String) :
    ∀ q ∈ Rss.zadd zs sc m, q.1 = m → q.2 = sc := by
  intro q hq hqm
  unfold Rss.zadd at hq
  by_cases h : zs.any (fun p => p.1 = m)
  · simp only [h, if_true, List.mem_map] at hq
    obtain ⟨p, _, hpq⟩ := hq
    by_cases hpm : p.1 = m
    · rw [if_pos hpm] at hpq
      rw [← hpq]
    · rw [if_neg hpm] at hpq
      rw [← hpq] at hqm
      exact absurd hqm hpm
  · rw [if_neg h] at hq
    rw [List.mem_append] at hq
    rcases hq with hq | hq
    · exact absurd (List.any_eq_true.mpr ⟨q, hq, by simp [hqm]⟩) h
    · simp only [List.mem_singleton] at hq
      rw [hq]

theorem zaddStep_zsets_other (iid : String) (now : Int) (key key2 : String)
    (s : Rss.Store) (h : key2 ≠ key) :
    (Rss.zaddStep iid now key s).zsets key2 = s.zsets key2 := by
  simp [Rss.zaddStep, Rss.upd, h]

/-- A per-feed trending key is always distinct from a global trending key:
the former is at least 17 characters long, the latter at most 12. -/
theorem feedWindowKey_ne_windowKey (f : String) (w w2 : Rss.TimeWindow) :
    Rss.feedWindowKey f w ≠ Rss.windowKey w2 := by
  intro h
  have hlen := congrArg String.length h
  rw [Rss.feedWindowKey, Rss.windowKey] at hlen
  simp only [String.length_append] at hlen
  have h1 : (r"trending:feed:").length = 14 := rfl
  have h2 : (r"trending:").length = 9 := rfl
  have h3 : (r":").length = 1 := rfl
  have h4 : (Rss.TimeWindow.str w).length ≤ 3 := by cases w <;> decide
  have h5 : (Rss.TimeWindow.str w2).length ≤ 3 := by cases w2 <;> decide
  have h6 : 2 ≤ (Rss.TimeWindow.str w).length := by cases w <;> decide
  omega

theorem foldl_zaddStep_feed_zsets (iid : String) (now : Int) (fid : String)
    (w2 : Rss.TimeWindow) (ws : List Rss.TimeWindow) :
    ∀ s : Rss.Store,
      ((ws.foldl (fun s w => Rss.zaddStep iid now (Rss.feedWindowKey fid w) s) s).zsets
          (Rss.windowKey w2))
        = s.zsets (Rss.windowKey w2) := by
  induction ws with
  | nil => intro s; rfl
  | cons w tl ih =>
      intro s
      rw [List.foldl_cons, ih,
        zaddStep_zsets_other iid now _ _ s (feedWindowKey_ne_windowKey fid w w2).symm]

/-- After `trackItemView`, the global `trending:1h` ranked set is exactly
the old one with the item's score refreshed to `now`; the other three
global updates and the per-feed updates touch different keys. -/
theorem trackItemView_h1_zset (st : Rss.Store) (X : String) (T : Int) :
    (Rss.trackItemView st X T).zsets (Rss.windowKey Rss.TimeWindow.h1)
      = Rss.zadd (st.zsets (Rss.windowKey Rss.TimeWindow.h1)) T X := by
  have h12 : Rss.windowKey Rss.TimeWindow.h1 ≠ Rss.windowKey Rss.TimeWindow.h24 := by decide
  have h13 : Rss.windowKey Rss.TimeWindow.h1 ≠ Rss.windowKey Rss.TimeWindow.d7 := by decide
  have h14 : Rss.windowKey Rss.TimeWindow.h1 ≠ Rss.windowKey Rss.TimeWindow.d30 := by decide
  have hglobal : ∀ s : Rss.Store,
      ((Rss.allWindows.foldl (fun s w => Rss.zaddStep X T (Rss.windowKey w) s) s).zsets
          (Rss.windowKey Rss.TimeWindow.h1))
        = Rss.zadd (s.zsets (Rss.windowKey Rss.TimeWindow.h1)) T X := by
    intro s
    unfold Rss.allWindows
    simp only [List.foldl_cons, List.foldl_nil]
    rw [zaddStep_zsets_other X T _ _ _ h14, zaddStep_zsets_other X T _ _ _ h13,
      zaddStep_zsets_other X T _ _ _ h12]
    simp [Rss.zaddStep, Rss.upd]
  unfold Rss.trackItemView
  generalize hs1 :
    Rss.allWindows.foldl (fun s w => Rss.zaddStep X T (Rss.windowKey w) s) st = s1
  cases hf : s1.directory.find? (fun f => (s1.itemLists f).contains X) with
  | none =>
      dsimp only
      rw [hf]
      rw [← hs1]
      exact hglobal st
  | some fid =>
      dsimp only
      rw [hf]
      rw [foldl_zaddStep_feed_zsets]
      rw [← hs1]
      exact hglobal st

/-- Every id returned by the ranked-range phase belongs to the set with a
score at least the cutoff. -/
theorem mem_trendingMemberIds_exists (st : Rss.Store) (key : String)
    (w : Rss.TimeWindow) (o : Option Nat) (now : Int) (m : String)
    (hm : m ∈ Rss.trendingMemberIds st key w o now) :
    ∃ sc : Int, (m, sc) ∈ st.zsets key ∧ now - Rss.getTimeWindowSeconds w * 1000 ≤ sc := by
  unfold Rss.trendingMemberIds Rss.zrevrangebyscore at hm
  rw [List.mem_map] at hm
  obtain ⟨q, hq, hqm⟩ := hm
  have hq2 := List.mem_of_mem_take hq
  rw [List.mem_insertionSort] at hq2
  rw [List.mem_filter] at hq2
  refine ⟨q.2, ?_, ?_⟩
  · rw [← hqm]
    exact hq2.1
  · have := hq2.2
    simpa using this

/-- When at most the effective limit of entries qualify, the ranked-range
phase returns every member whose score reaches the cutoff. -/
theorem mem_trendingMemberIds_of_le (st : Rss.Store) (key : String)
    (w : Rss.TimeWindow) (o : Option Nat) (now : Int) (m : String) (sc : Int)
    (hcount : ((st.zsets key).filter
        (fun q => decide (now - Rss.getTimeWindowSeconds w * 1000 ≤ q.2))).length
      ≤ Rss.jsOrNat o 10)
    (hmem : (m, sc) ∈ st.zsets key)
    (hsc : now - Rss.getTimeWindowSeconds w * 1000 ≤ sc) :
    m ∈ Rss.trendingMemberIds st key w o now := by
  unfold Rss.trendingMemberIds Rss.zrevrangebyscore
  have hfil : (m, sc) ∈ (st.zsets key).filter
      (fun q => decide (now - Rss.getTimeWindowSeconds w * 1000 ≤ q.2)) :=
    List.mem_filter.mpr ⟨hmem, by simpa using hsc⟩
  have hsort : (m, sc) ∈ List.insertionSort Rss.zrevGe ((st.zsets key).filter
      (fun q => decide (now - Rss.getTimeWindowSeconds w * 1000 ≤ q.2))) :=
    (List.mem_insertionSort Rss.zrevGe).mpr hfil
  rw [List.take_of_length_le ?hlen]
  · rw [List.mem_map]
    exact ⟨(m, sc), hsort, rfl⟩
  · rw [List.length_insertionSort]
    exact hcount

/-- C4 (counterexample): `trackView(X)` at `T = 0` and no later view of
`X`; ten other items are viewed later (at `1000`).  At `T + 3599s`, still
inside the 1h window, the claim demands that `getTrending("1h")` include
`X` — but the query is limited to the top 10 scores, so `X` is crowded
out: it is neither among the returned member ids nor among the returned
item documents. -/
theorem Rss.getTrendingItems_limit_crowds_out :
    Rss.exStoreC4After.itemDocs (r"x") = some Rss.exItemX ∧
    ((r"x"), (0:Int)) ∈ Rss.exStoreC4After.zsets (Rss.windowKey Rss.TimeWindow.h1) ∧
    (∀ q ∈ Rss.exStoreC4After.zsets (Rss.windowKey Rss.TimeWindow.h1),
      q.1 = r"x" → q.2 = 0) ∧
    (r"x") ∉ Rss.trendingMemberIds Rss.exStoreC4After (Rss.windowKey Rss.TimeWindow.h1)
        Rss.TimeWindow.h1 none 3599000 ∧
    Rss.exItemX ∉ Rss.getTrendingItems Rss.exStoreC4After Rss.TimeWindow.h1 none 3599000 := by
  decide

/-- C4 (amended): after `trackView(X)` at time `T` (and no later view of
`X`), the 1h ranked set holds `X` at score exactly `T`; a `getTrending("1h")`
query at `T + 3601s` never selects `X` (its score is below the cutoff
`now − 3600s`); a query at `T + 3599s` selects `X` *provided the number of
members inside the window does not exceed the effective limit* (default
10), and then resolves it to its stored document; in general, whenever at
most the limit qualify, the query selects exactly the members with score
in `[now − 3600s, +∞)`.  Window durations: 1h=3600s, 24h=86400s,
7d=604800s, 30d=2592000s. -/
theorem Rss.getTrendingItems_window_boundary
    (st : Rss.Store) (X : String) (T : Int) (o : Option Nat) (docX : Rss.FeedItem) :
    ((X, T) ∈ (Rss.trackItemView st X T).zsets (Rss.windowKey Rss.TimeWindow.h1) ∧
      ∀ q ∈ (Rss.trackItemView st X T).zsets (Rss.windowKey Rss.TimeWindow.h1),
        q.1 = X → q.2 = T) ∧
    X ∉ Rss.trendingMemberIds (Rss.trackItemView st X T)
        (Rss.windowKey Rss.TimeWindow.h1) Rss.TimeWindow.h1 o (T + 3601000) ∧
    ((((Rss.trackItemView st X T).zsets (Rss.windowKey Rss.TimeWindow.h1)).filter
          (fun q => decide (T + 3599000 - 3600000 ≤ q.2))).length ≤ Rss.jsOrNat o 10 →
      X ∈ Rss.trendingMemberIds (Rss.trackItemView st X T)
          (Rss.windowKey Rss.TimeWindow.h1) Rss.TimeWindow.h1 o (T + 3599000) ∧
      ((Rss.trackItemView st X T).itemDocs X = some docX →
        docX ∈ Rss.getTrendingItems (Rss.trackItemView st X T) Rss.TimeWindow.h1 o
          (T + 3599000))) ∧
    (∀ now : Int,
      (((Rss.trackItemView st X T).zsets (Rss.windowKey Rss.TimeWindow.h1)).filter
          (fun q => decide (now - 3600000 ≤ q.2))).length ≤ Rss.jsOrNat o 10 →
      ∀ m : String,
        m ∈ Rss.trendingMemberIds (Rss.trackItemView st X T)
            (Rss.windowKey Rss.TimeWindow.h1) Rss.TimeWindow.h1 o now ↔
          ∃ sc : Int,
            (m, sc) ∈ (Rss.trackItemView st X T).zsets (Rss.windowKey Rss.TimeWindow.h1) ∧
              now - 3600000 ≤ sc) ∧
    (Rss.getTimeWindowSeconds Rss.TimeWindow.h1 = 3600 ∧
      Rss.getTimeWindowSeconds Rss.TimeWindow.h24 = 86400 ∧
      Rss.getTimeWindowSeconds Rss.TimeWindow.d7 = 604800 ∧
      Rss.getTimeWindowSeconds Rss.TimeWindow.d30 = 2592000) := by
  have hz := trackItemView_h1_zset st X T
  have hwsec : Rss.getTimeWindowSeconds Rss.TimeWindow.h1 * 1000 = 3600000 := by decide
  refine ⟨?_, ?_, ?_, ?_, rfl, rfl, rfl, rfl⟩
  · rw [hz]
    exact ⟨zadd_mem_self _ T X, zadd_score_eq _ T X⟩
  · intro hmem
    obtain ⟨sc, hscmem, hge⟩ :=
      mem_trendingMemberIds_exists _ _ _ o (T + 3601000) X hmem
    rw [hwsec] at hge
    rw [hz] at hscmem
    have hscT : sc = T := zadd_score_eq _ T X (X, sc) hscmem rfl
    omega
  · intro hcount
    rw [show (fun q : String × Int => decide (T + 3599000 - 3600000 ≤ q.2))
        = (fun q : String × Int =>
            decide (T + 3599000 - Rss.getTimeWindowSeconds Rss.TimeWindow.h1 * 1000 ≤ q.2))
      from by rw [hwsec]] at hcount
    have hx : X ∈ Rss.trendingMemberIds (Rss.trackItemView st X T)
        (Rss.windowKey Rss.TimeWindow.h1) Rss.TimeWindow.h1 o (T + 3599000) := by
      apply mem_trendingMemberIds_of_le _ _ _ o _ X T hcount
      · rw [hz]
        exact zadd_mem_self _ T X
      · rw [hwsec]
        omega
    refine ⟨hx, fun hdoc => ?_⟩
    unfold Rss.getTrendingItems
    exact List.mem_filterMap.mpr ⟨X, hx, hdoc⟩
  · intro now hcount m
    rw [show (fun q : String × Int => decide (now - 3600000 ≤ q.2))
        = (fun q : String × Int =>
            decide (now - Rss.getTimeWindowSeconds Rss.TimeWindow.h1 * 1000 ≤ q.2))
      from by rw [hwsec]] at hcount
    constructor
    · intro hm
      obtain ⟨sc, hscmem, hge⟩ := mem_trendingMemberIds_exists _ _ _ o now m hm
      rw [hwsec] at hge
      exact ⟨sc, hscmem, hge⟩
    · rintro ⟨sc, hscmem, hge⟩
      apply mem_trendingMemberIds_of_le _ _ _ o now m sc hcount hscmem
      rw [hwsec]
      exact hge

/-- Witness for the amended C4: a single tracked view at `T = 0` in a store
holding the item's document, queried at the two boundary instants with the
default limit. -/
theorem Rss.getTrendingItems_window_boundary_witness :
    (((r"x"), (0:Int)) ∈ (Rss.trackItemView Rss.exStoreC4 (r"x") 0).zsets
        (Rss.windowKey Rss.TimeWindow.h1)) ∧
    (((r"x"), (0:Int)).2 = 0) ∧
    ((r"x") ∉ Rss.trendingMemberIds (Rss.trackItemView Rss.exStoreC4 (r"x") 0)
        (Rss.windowKey Rss.TimeWindow.h1) Rss.TimeWindow.h1 none ((0:Int) + 3601000)) ∧
    ((((Rss.trackItemView Rss.exStoreC4 (r"x") 0).zsets
          (Rss.windowKey Rss.TimeWindow.h1)).filter
            (fun q => decide ((0:Int) + 3599000 - 3600000 ≤ q.2))).length
        ≤ Rss.jsOrNat none 10) ∧
    ((r"x") ∈ Rss.trendingMemberIds (Rss.trackItemView Rss.exStoreC4 (r"x") 0)
        (Rss.windowKey Rss.TimeWindow.h1) Rss.TimeWindow.h1 none ((0:Int) + 3599000)) ∧
    ((Rss.trackItemView Rss.exStoreC4 (r"x") 0).itemDocs (r"x") = some Rss.exItemX) ∧
    (Rss.exItemX ∈ Rss.getTrendingItems (Rss.trackItemView Rss.exStoreC4 (r"x") 0)
        Rss.TimeWindow.h1 none ((0:Int) + 3599000)) ∧
    ((r"x") ∈ Rss.trendingMemberIds (Rss.trackItemView Rss.exStoreC4 (r"x") 0)
          (Rss.windowKey Rss.TimeWindow.h1) Rss.TimeWindow.h1 none 3599000 ↔
      ∃ sc : Int, ((r"x"), sc) ∈ (Rss.trackItemView Rss.exStoreC4 (r"x") 0).zsets
          (Rss.windowKey Rss.TimeWindow.h1) ∧ (3599000:Int) - 3600000 ≤ sc) := by
  have hmain := Rss.getTrendingItems_window_boundary Rss.exStoreC4 (r"x") 0 none Rss.exItemX
  have hcount : (((Rss.trackItemView Rss.exStoreC4 (r"x") 0).zsets
      (Rss.windowKey Rss.TimeWindow.h1)).filter
        (fun q => decide ((0:Int) + 3599000 - 3600000 ≤ q.2))).length
      ≤ Rss.jsOrNat none 10 := by decide
  have hcount2 : (((Rss.trackItemView Rss.exStoreC4 (r"x") 0).zsets
      (Rss.windowKey Rss.TimeWindow.h1)).filter
        (fun q => decide ((3599000:Int) - 3600000 ≤ q.2))).length
      ≤ Rss.jsOrNat none 10 := by decide
  have hdoc : (Rss.trackItemView Rss.exStoreC4 (r"x") 0).itemDocs (r"x")
      = some Rss.exItemX := by decide
  exact ⟨hmain.1.1,
    hmain.1.2 ((r"x"), (0:Int)) hmain.1.1 rfl,
    hmain.2.1,
    hcount,
    (hmain.2.2.1 hcount).1,
    hdoc,
    (hmain.2.2.1 hcount).2 hdoc,
    hmain.2.2.2.1 3599000 hcount2 (r"x")⟩
